import Mathlib

/-!
Verification of the hodor in-memory TTL cache (src/lib.rs).

The Rust source is embedded shallowly:

* `Instant` / `Duration` are natural-number ticks; `Instant::elapsed()` at time
  `now` is the truncated difference `now - inserted` (a monotone clock never
  runs backwards, and `Instant` subtraction saturates at zero).
* Rust's `HashMap<K, Value<V>>` is an association list with unique keys;
  `storeGet`, `storeInsert` and `storeRemove` implement the observable
  behaviour of `HashMap::get`, `HashMap::insert` (replace and return the old
  value) and `HashMap::remove`.
* `rand::seq::index::sample(rng, length, amount)` is abstracted as an oracle
  `sampler : Nat -> Nat -> List Nat` applied to `length` and `amount`; a real
  draw is any list of `amount` distinct indices below `length`, in an
  arbitrary order (`ValidSample`).  `vacuum` receives one sampler per retry
  pass (`oracle : Nat -> Nat -> Nat -> List Nat`, indexed by pass number).
* `f32` arithmetic in `vacuum` is modelled over `ℚ`.  The only comparisons
  performed are `retry_threshold` against the literals `0.0` and `1.0` and the
  ratio `expired_count / (count as f32)` against `retry_threshold`; for
  `count = 0` the f32 ratio is `0.0 / 0.0 = NaN` and `NaN > t` is `false`,
  which coincides with the rational convention `0 / 0 = 0` (also not greater
  than a positive threshold), so the guard takes the same branch in both
  semantics.
* panics (`assert!` on the threshold, `Vec::remove` out of bounds) are modelled
  as explicit outcome constructors carrying the state at the panic.
-/

namespace Hodor

variable {K V : Type}

/-- Expiration data (src/lib.rs lines 29-32): the instant the value was
inserted and the duration it should live. -/
structure Expiration where
  inserted : Nat
  ttl : Nat
deriving DecidableEq, Repr

/-- A value is either persistent or carries expiration metadata
(src/lib.rs lines 22-25). -/
inductive ExpireMeta where
  | Persistent
  | Expires (e : Expiration)
deriving DecidableEq, Repr

/-- A stored value of type `V` with optional expiration data
(src/lib.rs lines 16-19). -/
structure Value (V : Type) where
  value : V
  expires : ExpireMeta
deriving DecidableEq, Repr

/-- `HashMap::get`: the value stored under `k`, if any. -/
def storeGet [DecidableEq K] (s : List (K × Value V)) (k : K) : Option (Value V) :=
  match s with
  | [] => none
  | p :: rest => if p.1 = k then some p.2 else storeGet rest k

/-- `HashMap::insert`: store `v` under `k`, replacing and returning any
previous value for `k`. -/
def storeInsert [DecidableEq K] (s : List (K × Value V)) (k : K) (v : Value V) :
    List (K × Value V) × Option (Value V) :=
  match s with
  | [] => ([(k, v)], none)
  | p :: rest =>
    if p.1 = k then ((k, v) :: rest, some p.2)
    else
      let r := storeInsert rest k v
      (p :: r.1, r.2)

/-- `HashMap::remove`: drop the entry for `k`. -/
def storeRemove [DecidableEq K] (s : List (K × Value V)) (k : K) : List (K × Value V) :=
  match s with
  | [] => []
  | p :: rest => if p.1 = k then storeRemove rest k else p :: storeRemove rest k

/-- `HashCache` (src/lib.rs lines 35-38): the store plus the ordered candidate
list `expiring` of keys that were inserted with a TTL. -/
structure HashCache (K V : Type) where
  store : List (K × Value V)
  expiring : List K
deriving DecidableEq, Repr

/-- `HashCache::new` (src/lib.rs lines 41-43). -/
def HashCache.new : HashCache K V := ⟨[], []⟩

/-- The body of `HashCache::expired` (src/lib.rs lines 45-58) on a raw store:
a present `Expires` entry is expired iff `inserted.elapsed() > ttl`, a
`Persistent` entry never, and an absent key is reported expired. -/
def expiredIn [DecidableEq K] (store : List (K × Value V)) (now : Nat) (key : K) : Bool :=
  match storeGet store key with
  | some v =>
    match v.expires with
    | ExpireMeta.Expires e => decide (now - e.inserted > e.ttl)
    | _ => false
  | none => true

/-- `HashCache::expired` (src/lib.rs lines 45-58). -/
def HashCache.expired [DecidableEq K] (c : HashCache K V) (now : Nat) (key : K) : Bool :=
  expiredIn c.store now key

/-- `HashCache::insert` (src/lib.rs lines 90-93): store the value as
`Persistent`, return the previous value.  The candidate list is not touched. -/
def HashCache.insert [DecidableEq K] (c : HashCache K V) (key : K) (value : V) :
    HashCache K V × Option V :=
  let r := storeInsert c.store key ⟨value, ExpireMeta.Persistent⟩
  (⟨r.1, c.expiring⟩, r.2.map Value.value)

/-- `HashCache::insert_ttl` (src/lib.rs lines 95-99): push the key onto the
candidate list, then store the value with `Expires{inserted: now, ttl}`. -/
def HashCache.insertTtl [DecidableEq K] (c : HashCache K V) (now : Nat) (key : K) (value : V)
    (ttl : Nat) : HashCache K V × Option V :=
  let r := storeInsert c.store key ⟨value, ExpireMeta.Expires ⟨now, ttl⟩⟩
  (⟨r.1, c.expiring ++ [key]⟩, r.2.map Value.value)

/-- `HashCache::get` (src/lib.rs lines 101-112).  It takes `&self`, so it
returns no modified cache: the result is the returned `bool` paired with the
argument passed to the consumer `f` (`none` when `f` is not invoked). -/
def HashCache.get [DecidableEq K] (c : HashCache K V) (now : Nat) (key : K) : Bool × Option V :=
  if c.expired now key then (false, none)
  else
    match storeGet c.store key with
    | some v => (true, some v.value)
    | none => (false, none)

/-- The marking loop of `vacuum_sample` (src/lib.rs lines 72-82): walk the
sampled indices in their drawn order; for an index whose key is expired,
remove the key from the store and record the index in `expired_indices`.
The candidate list itself is only read here; the store mutates as the loop
runs, and `expired` consults the current store. -/
def markGo [DecidableEq K] (expiring : List K) (now : Nat) :
    List Nat → List (K × Value V) → List Nat → List (K × Value V) × List Nat
  | [], store, marked => (store, marked)
  | index :: rest, store, marked =>
    match expiring.get? index with
    | some key =>
      if expiredIn store now key then
        markGo expiring now rest (storeRemove store key) (marked ++ [index])
      else
        markGo expiring now rest store marked
    | none => markGo expiring now rest store marked

/-- The removal loop of `vacuum_sample` (src/lib.rs line 84):
`expired_indices.iter().map(|i| self.expiring.remove(*i)).count()`.
Each `Vec::remove(i)` shifts later elements down and panics when
`i >= len`; the error value carries the candidate list at the panic. -/
def removeGo : List K → Nat → List Nat → Except (List K) (List K × Nat)
  | e, n, [] => Except.ok (e, n)
  | e, n, i :: rest =>
    if i < e.length then removeGo (e.eraseIdx i) (n + 1) rest
    else Except.error e

/-- A legitimate output of `rand::seq::index::sample(rng, len, amount)`:
`amount` distinct indices below `len`, in an arbitrary order. -/
def ValidSample (len amount : Nat) (samples : List Nat) : Prop :=
  samples.length = amount ∧ samples.Nodup ∧ ∀ i ∈ samples, i < len

instance (len amount : Nat) (samples : List Nat) :
    Decidable (ValidSample len amount samples) := by
  unfold ValidSample; infer_instance

/-- `HashCache::vacuum_sample` (src/lib.rs lines 62-85): clamp the sample size
to the candidate-list length, draw the indices, mark and remove expired keys
from the store, then remove the marked indices from the candidate list. An
`Except.error` is a `Vec::remove` panic and carries the cache state at the
panic (store mutations already applied, candidate list partially removed). -/
def HashCache.vacuumSample [DecidableEq K] (c : HashCache K V) (now count : Nat)
    (sampler : Nat → Nat → List Nat) : Except (HashCache K V) (HashCache K V × Nat) :=
  let amount := min count c.expiring.length
  let samples := sampler c.expiring.length amount
  let marked := markGo c.expiring now samples c.store []
  match removeGo c.expiring 0 marked.2 with
  | Except.ok (e, n) => Except.ok (⟨marked.1, e⟩, n)
  | Except.error e => Except.error ⟨marked.1, e⟩

/-- Outcome of a `vacuum` call: normal completion (with the number of
sampling passes that ran), an `assert!` failure on the threshold, a
`Vec::remove` panic inside a pass, or fuel exhaustion of the model's
loop bound (shown never to occur: see `vacuum_ne_fuelOut`). -/
inductive VacOutcome (K V : Type) where
  | ok (c : HashCache K V) (passes : Nat)
  | assertFail (c : HashCache K V)
  | removePanic (c : HashCache K V)
  | fuelOut (c : HashCache K V)
deriving DecidableEq, Repr

/-- The retry loop of `HashCache::vacuum` (src/lib.rs lines 123-128):
`while expired_count/(count as f32) > retry_threshold` run one sampling pass.
`pass` counts the passes already executed (and indexes the oracle); `fuel` is
a structural bound on the recursion, never reached from `vacuum`. -/
def vacuumLoop [DecidableEq K] (now count : Nat) (t : ℚ) (oracle : Nat → Nat → Nat → List Nat) :
    Nat → Nat → HashCache K V → ℚ → VacOutcome K V
  | 0, _, c, _ => VacOutcome.fuelOut c
  | fuel + 1, pass, c, expiredCount =>
    if expiredCount / (count : ℚ) > t then
      match c.vacuumSample now count (oracle pass) with
      | Except.error cp => VacOutcome.removePanic cp
      | Except.ok (c2, n) => vacuumLoop now count t oracle fuel (pass + 1) c2 (n : ℚ)
    else VacOutcome.ok c pass

/-- `HashCache::vacuum` (src/lib.rs lines 116-129): assert
`retry_threshold` lies strictly inside `(0, 1)`, seed `expired_count` with
`count` so the loop runs at least once, then retry sampling passes while the
expired ratio stays above the threshold. -/
def HashCache.vacuum [DecidableEq K] (c : HashCache K V) (now count : Nat) (t : ℚ)
    (oracle : Nat → Nat → Nat → List Nat) : VacOutcome K V :=
  if t > 0 then
    if t < 1 then
      vacuumLoop now count t oracle (c.expiring.length + 2) 0 c (count : ℚ)
    else VacOutcome.assertFail c
  else VacOutcome.assertFail c

/-- Entry is alive at `now`: `Persistent`, or within its TTL
(`now - inserted_at <= ttl`). -/
def LiveEntry (now : Nat) (v : Value V) : Prop :=
  v.expires = ExpireMeta.Persistent ∨
    ∃ e, v.expires = ExpireMeta.Expires e ∧ now - e.inserted ≤ e.ttl

/-- The store component of a `vacuum_sample` outcome (the store at the panic
for the error case). -/
def sampleResultStore : Except (HashCache K V) (HashCache K V × Nat) → List (K × Value V)
  | Except.ok p => p.1.store
  | Except.error cp => cp.store

/-- Observation on a `vacuum` outcome: the call hit the `assert!` on the
retry threshold. -/
def VacOutcome.isAssertFail : VacOutcome K V → Bool
  | VacOutcome.assertFail _ => true
  | _ => false

/-- Observation on a `vacuum` outcome: the call completed normally with zero
sampling passes executed, i.e. the loop body never ran. -/
def VacOutcome.stoppedWithoutPass : VacOutcome K V → Bool
  | VacOutcome.ok _ 0 => true
  | _ => false

/-- One sampled key's handling by `ThreadSafeHashCache::vacuum_sample`
(src/lib.rs lines 183-191), with one foreign store mutation interleaved.
`ThreadSafeHashCache::expired` (lines 142-157) takes the store read lock,
evaluates the expiration test and releases the lock when it returns; only
then does `vacuum_sample` acquire the store write lock and call
`store.remove(key)` (lines 186-187), without re-checking.  `mid` is a store
mutation performed by another thread that acquires the store write lock in
the window between those two critical sections (e.g. the body of
`ThreadSafeHashCache::insert`, lines 200-204, which needs no other lock). -/
def tsCheckThenRemove [DecidableEq K] (store : List (K × Value V)) (now : Nat) (key : K)
    (mid : List (K × Value V) → List (K × Value V)) : List (K × Value V) :=
  let wasExpired := expiredIn store now key
  let store2 := mid store
  if wasExpired then storeRemove store2 key else store2

/-- Concrete cache for claim C1: key `"id"` inserted with TTL 1 at tick 0
(concrete scenario 1 of the spec, and the repository's `expire_key` test). -/
def c1cache : HashCache String String :=
  ⟨[("id", ⟨"secret", ExpireMeta.Expires ⟨0, 1⟩⟩)], ["id"]⟩

/-- Concrete cache for claim C2: two keys inserted with TTL 0 at tick 0,
both expired at tick 1. -/
def c2cache : HashCache String String :=
  ⟨[("a", ⟨"va", ExpireMeta.Expires ⟨0, 0⟩⟩), ("b", ⟨"vb", ExpireMeta.Expires ⟨0, 0⟩⟩)],
   ["a", "b"]⟩

/-- Concrete cache for claim C4: candidate list of size N = 2 with E = 2
expired entries. -/
def c4cache : HashCache String String :=
  ⟨[("x", ⟨"vx", ExpireMeta.Expires ⟨0, 0⟩⟩), ("y", ⟨"vy", ExpireMeta.Expires ⟨0, 0⟩⟩)],
   ["x", "y"]⟩

/-- Sampler for claims C2 and C4: the draw of all indices of a 2-element
candidate list that visits them in ascending order (probability 1/2 for
`rand::seq::index::sample(rng, 2, 2)`). -/
def ascSampler2 : Nat → Nat → List Nat := fun _ _ => [0, 1]

/-- Claim C9's reachable start state: three `insert_ttl` calls at tick 0 on a
fresh cache, keys `"a"` and `"b"` with TTL 0 and `"c"` with TTL 100. -/
def c9Start : HashCache String String :=
  (((HashCache.new.insertTtl 0 "a" "va" 0).1.insertTtl 0 "b" "vb" 0).1.insertTtl
    0 "c" "vc" 100).1

/-- Sampler for claim C9: the ascending draw of all three indices
(probability 1/6 for `rand::seq::index::sample(rng, 3, 3)`). -/
def ascSampler3 : Nat → Nat → List Nat := fun _ _ => [0, 1, 2]

/-- The state `vacuum 1 3 (9/10)` leaves behind from `c9Start` under
`ascSampler3`: key `"c"` still holds `Expires` state in the store but its
candidate-list entry was removed by the shifted index-1 removal, while the
stale `"b"` entry survives. -/
def c9After : HashCache String String :=
  ⟨[("c", ⟨"vc", ExpireMeta.Expires ⟨0, 100⟩⟩)], ["b"]⟩

/-- Store for claim C5: key `"id"` holds an entry that expired (TTL 0,
inserted at tick 0, checked at tick 1). -/
def c5store : List (String × Value String) :=
  [("id", ⟨"old", ExpireMeta.Expires ⟨0, 0⟩⟩)]

/-- The foreign thread's action for claim C5: `ThreadSafeHashCache::insert`
of a fresh persistent value for the same key (src/lib.rs lines 200-204). -/
def c5insert : List (String × Value String) → List (String × Value String) :=
  fun st => (storeInsert st "id" ⟨"fresh", ExpireMeta.Persistent⟩).1

/-- Cache with a live persistent entry and an expired TTL entry, used to
witness claim C3. -/
def c3cache : HashCache String String :=
  ⟨[("p", ⟨"vp", ExpireMeta.Persistent⟩), ("q", ⟨"vq", ExpireMeta.Expires ⟨0, 0⟩⟩)], ["q"]⟩

/-- The sampler that draws the single index of a 1-element candidate list. -/
def oneSampler : Nat → Nat → List Nat := fun _ _ => [0]

/-- The empty draw, the only valid sample when `amount = 0`. -/
def emptySampler : Nat → Nat → List Nat := fun _ _ => []

/-! ### Helper lemmas -/

theorem storeGet_remove_ne [DecidableEq K] (s : List (K × Value V)) (k k2 : K) (h : k ≠ k2) :
    storeGet (storeRemove s k2) k = storeGet s k := by
  induction s with
  | nil => rfl
  | cons p rest ih =>
    by_cases hp : p.1 = k2
    · have hk : ¬ p.1 = k := fun hk => h (hk ▸ hp)
      simp [storeRemove, storeGet, hp, hk, Ne.symm h, ih]
    · by_cases hk : p.1 = k
      · simp [storeRemove, storeGet, hp, hk, h, ih]
      · simp [storeRemove, storeGet, hp, hk, ih]

theorem storeGet_insert_self [DecidableEq K] (s : List (K × Value V)) (k : K) (v : Value V) :
    storeGet (storeInsert s k v).1 k = some v := by
  induction s with
  | nil => simp [storeInsert, storeGet]
  | cons p rest ih =>
    by_cases hp : p.1 = k
    · simp [storeInsert, storeGet, hp]
    · simp [storeInsert, storeGet, hp, ih]

theorem expiredIn_eq_false_of_live [DecidableEq K] (store : List (K × Value V)) (now : Nat)
    (k : K) (v : Value V) (hg : storeGet store k = some v) (hl : LiveEntry now v) :
    expiredIn store now k = false := by
  cases hl with
  | inl hp => simp [expiredIn, hg, hp]
  | inr h =>
    obtain ⟨e, he, hle⟩ := h
    simp only [expiredIn, hg, he, decide_eq_false_iff_not, gt_iff_lt, not_lt]
    exact hle

theorem markGo_preserves_live [DecidableEq K] (expiring : List K) (now : Nat)
    (samples : List Nat) (store : List (K × Value V)) (marked : List Nat) (k : K)
    (v : Value V) (hg : storeGet store k = some v) (hl : LiveEntry now v) :
    storeGet (markGo expiring now samples store marked).1 k = some v := by
  induction samples generalizing store marked with
  | nil => simpa [markGo] using hg
  | cons i rest ih =>
    cases hidx : expiring.get? i with
    | none =>
      simp only [markGo, hidx]
      exact ih store marked hg
    | some key =>
      by_cases hexp : expiredIn store now key = true
      · have hne : k ≠ key := by
          intro heq
          rw [← heq, expiredIn_eq_false_of_live store now k v hg hl] at hexp
          exact Bool.false_ne_true hexp
        simp only [markGo, hidx]
        rw [if_pos hexp]
        exact ih (storeRemove store key) (marked ++ [i])
          ((storeGet_remove_ne store k key hne).trans hg)
      · simp only [markGo, hidx]
        rw [if_neg hexp]
        exact ih store marked hg

theorem removeGo_ok_length (idxs : List Nat) (e e2 : List K) (n n2 : Nat)
    (h : removeGo e n idxs = Except.ok (e2, n2)) :
    e2.length + idxs.length = e.length ∧ n2 = n + idxs.length := by
  induction idxs generalizing e n with
  | nil =>
    simp only [removeGo, Except.ok.injEq, Prod.mk.injEq] at h
    simp [← h.1, ← h.2]
  | cons i rest ih =>
    rw [removeGo] at h
    by_cases hi : i < e.length
    · rw [if_pos hi] at h
      have hlen := List.length_eraseIdx_add_one hi
      obtain ⟨h1, h2⟩ := ih (e.eraseIdx i) (n + 1) h
      simp only [List.length_cons]
      omega
    · rw [if_neg hi] at h
      exact absurd h (by simp)

theorem vacuumSample_ok_length [DecidableEq K] (c c2 : HashCache K V) (now count : Nat)
    (sampler : Nat → Nat → List Nat) (n : Nat)
    (h : c.vacuumSample now count sampler = Except.ok (c2, n)) :
    c2.expiring.length + n = c.expiring.length := by
  simp only [HashCache.vacuumSample] at h
  cases hr : removeGo c.expiring 0
      (markGo c.expiring now (sampler c.expiring.length (min count c.expiring.length))
        c.store []).2 with
  | ok p =>
    obtain ⟨e, m⟩ := p
    rw [hr] at h
    simp only [Except.ok.injEq, Prod.mk.injEq] at h
    obtain ⟨hc2, hn⟩ := h
    obtain ⟨h1, h2⟩ := removeGo_ok_length _ c.expiring e 0 m hr
    rw [← hc2, ← hn]
    have : e.length + m = c.expiring.length := by omega
    simpa using this
  | error e =>
    rw [hr] at h
    exact absurd h (by simp)

theorem vacuumLoop_stop [DecidableEq K] (now count : Nat) (t : ℚ)
    (oracle : Nat → Nat → Nat → List Nat) (fuel pass : Nat) (c : HashCache K V) (ec : ℚ)
    (h : ¬ ec / (count : ℚ) > t) :
    vacuumLoop now count t oracle (fuel + 1) pass c ec = VacOutcome.ok c pass := by
  rw [vacuumLoop, if_neg h]

theorem vacuumLoop_panic [DecidableEq K] (now count : Nat) (t : ℚ)
    (oracle : Nat → Nat → Nat → List Nat) (fuel pass : Nat) (c cp : HashCache K V) (ec : ℚ)
    (h : ec / (count : ℚ) > t)
    (hs : c.vacuumSample now count (oracle pass) = Except.error cp) :
    vacuumLoop now count t oracle (fuel + 1) pass c ec = VacOutcome.removePanic cp := by
  rw [vacuumLoop, if_pos h, hs]

theorem vacuumLoop_pass [DecidableEq K] (now count : Nat) (t : ℚ)
    (oracle : Nat → Nat → Nat → List Nat) (fuel pass : Nat) (c c2 : HashCache K V)
    (ec : ℚ) (n : Nat) (h : ec / (count : ℚ) > t)
    (hs : c.vacuumSample now count (oracle pass) = Except.ok (c2, n)) :
    vacuumLoop now count t oracle (fuel + 1) pass c ec =
      vacuumLoop now count t oracle fuel (pass + 1) c2 (n : ℚ) := by
  rw [vacuumLoop, if_pos h, hs]

theorem vacuumLoop_isAssertFail [DecidableEq K] (now count : Nat) (t : ℚ)
    (oracle : Nat → Nat → Nat → List Nat) (fuel pass : Nat) (c : HashCache K V) (ec : ℚ) :
    (vacuumLoop now count t oracle fuel pass c ec).isAssertFail = false := by
  induction fuel generalizing pass c ec with
  | zero => rfl
  | succ f ih =>
    by_cases hg : ec / (count : ℚ) > t
    · cases hs : c.vacuumSample now count (oracle pass) with
      | error cp => rw [vacuumLoop_panic now count t oracle f pass c cp ec hg hs]; rfl
      | ok p =>
        obtain ⟨c2, n⟩ := p
        rw [vacuumLoop_pass now count t oracle f pass c c2 ec n hg hs]
        exact ih (pass + 1) c2 (n : ℚ)
    · rw [vacuumLoop_stop now count t oracle f pass c ec hg]; rfl

theorem vacuumLoop_stoppedWithoutPass [DecidableEq K] (now count : Nat) (t : ℚ)
    (oracle : Nat → Nat → Nat → List Nat) (fuel pass : Nat) (c : HashCache K V) (ec : ℚ)
    (hp : 1 ≤ pass) :
    (vacuumLoop now count t oracle fuel pass c ec).stoppedWithoutPass = false := by
  induction fuel generalizing pass c ec with
  | zero => rfl
  | succ f ih =>
    by_cases hg : ec / (count : ℚ) > t
    · cases hs : c.vacuumSample now count (oracle pass) with
      | error cp => rw [vacuumLoop_panic now count t oracle f pass c cp ec hg hs]; rfl
      | ok p =>
        obtain ⟨c2, n⟩ := p
        rw [vacuumLoop_pass now count t oracle f pass c c2 ec n hg hs]
        exact ih (pass + 1) c2 (n : ℚ) (by omega)
    · rw [vacuumLoop_stop now count t oracle f pass c ec hg]
      cases pass with
      | zero => omega
      | succ p2 => rfl

theorem vacuumLoop_no_fuelOut [DecidableEq K] (now count : Nat) (t : ℚ)
    (oracle : Nat → Nat → Nat → List Nat) (fuel pass : Nat) (c : HashCache K V) (ec : ℚ)
    (ht : 0 < t) (hfuel : c.expiring.length + 2 ≤ fuel) (cp : HashCache K V) :
    vacuumLoop now count t oracle fuel pass c ec ≠ VacOutcome.fuelOut cp := by
  induction fuel generalizing pass c ec with
  | zero => omega
  | succ f ih =>
    by_cases hg : ec / (count : ℚ) > t
    · cases hs : c.vacuumSample now count (oracle pass) with
      | error cq => rw [vacuumLoop_panic now count t oracle f pass c cq ec hg hs]; simp
      | ok p =>
        obtain ⟨c2, n⟩ := p
        rw [vacuumLoop_pass now count t oracle f pass c c2 ec n hg hs]
        have hlen := vacuumSample_ok_length c c2 now count (oracle pass) n hs
        cases n with
        | zero =>
          have hf : 1 ≤ f := by omega
          obtain ⟨f2, rfl⟩ := Nat.exists_eq_add_of_le hf
          have hng : ¬ ((0 : Nat) : ℚ) / (count : ℚ) > t := by
            rw [Nat.cast_zero, zero_div]
            exact fun hlt => lt_asymm ht hlt
          rw [Nat.add_comm 1 f2, vacuumLoop_stop now count t oracle f2 (pass + 1) c2 _ hng]
          simp
        | succ m =>
          exact ih (pass + 1) c2 ((m + 1 : Nat) : ℚ) (by omega)
    · rw [vacuumLoop_stop now count t oracle f pass c ec hg]; simp

/-- Sanity check of the model's loop bound: a `vacuum` call that passes the
threshold assertion never exhausts its fuel, because a pass that keeps the
ratio above the positive threshold removed at least one candidate entry, so
the candidate list strictly shrinks before every retry. -/
theorem vacuum_ne_fuelOut [DecidableEq K] (c : HashCache K V) (now count : Nat) (t : ℚ)
    (oracle : Nat → Nat → Nat → List Nat) (cp : HashCache K V) :
    c.vacuum now count t oracle ≠ VacOutcome.fuelOut cp := by
  unfold HashCache.vacuum
  by_cases h0 : t > 0
  · rw [if_pos h0]
    by_cases h1 : t < 1
    · rw [if_pos h1]
      exact vacuumLoop_no_fuelOut now count t oracle (c.expiring.length + 2) 0 c _ h0
        (Nat.le_refl _) cp
    · rw [if_neg h1]; simp
  · rw [if_neg h0]; simp

/-! ### Claim theorems -/

/-- Claim C1, counterexample.  On a TTL-expired key, `get` returns a miss
and does not invoke the consumer, but it performs no lazy eviction: `get`
takes `&self` (src/lib.rs line 101) and cannot mutate the store, so after
the miss the expired entry is still present.  The repository's own
`expire_key` test asserts exactly this (`cache.store.len()` is still 1 after
the miss), contradicting the claim that the key is absent from the store. -/
theorem C1_counterexample :
    c1cache.get 2 "id" = (false, none) ∧
    c1cache.expired 2 "id" = true ∧
    storeGet c1cache.store "id" = some ⟨"secret", ExpireMeta.Expires ⟨0, 1⟩⟩ :=
  ⟨rfl, rfl, rfl⟩

/-- Claim C1, amended: if the key's entry is missing or expired, `get`
returns false without invoking the consumer, and leaves the store and the
candidate list untouched (it takes the cache by shared reference, which is
why the model's `get` returns no cache state at all); the expired entry
stays in the store, and its candidate-list entry stays, until a vacuum pass
removes them. -/
theorem C1_amended_get_miss [DecidableEq K] (c : HashCache K V) (now : Nat) (k : K)
    (h : c.expired now k = true) :
    c.get now k = (false, none) := by
  simp [HashCache.get, h]

/-- Witness for `C1_amended_get_miss` at the concrete expired-entry cache. -/
theorem C1_witness :
    c1cache.expired 2 "id" = true ∧ c1cache.get 2 "id" = (false, none) :=
  ⟨rfl, C1_amended_get_miss c1cache 2 "id" rfl⟩

/-- Claim C2.  The removal step of `vacuum_sample` (src/lib.rs line 84) does
NOT account for index shifting: it removes the marked indices in the order
they were sampled.  With candidate list `["a", "b"]`, both expired, and the
(probability 1/2) draw `[0, 1]`, removing index 0 leaves a 1-element vector
and the subsequent `Vec::remove(1)` indexes out of bounds — a panic, modelled
by the `Except.error` carrying the state at the panic: both keys already
removed from the store, candidate list still holding `["b"]`.  The draw is a
legitimate output of `rand::seq::index::sample(rng, 2, 2)` (`ValidSample`). -/
theorem C2_removal_bug :
    c2cache.vacuumSample 1 2 ascSampler2 =
      Except.error ⟨[], ["b"]⟩ ∧
    ValidSample 2 2 [0, 1] ∧
    expiredIn c2cache.store 1 "a" = true ∧
    expiredIn c2cache.store 1 "b" = true :=
  ⟨rfl, by decide, rfl, rfl⟩

/-- Claim C5.  In `ThreadSafeHashCache::vacuum_sample` the expiration check
and the removal are two separate critical sections: `expired` holds the
store read lock and releases it on return (src/lib.rs lines 142-157, called
at line 185), and only afterwards is the store write lock acquired for
`store.remove(key)` (lines 186-187), with no re-check.  A persistent
`insert` of the same key by another thread (lines 200-204, which takes only
the store write lock) can be interleaved into that window.  Concretely: key
`"id"` is expired at the check; the other thread then inserts a fresh
`Persistent` value for `"id"` (second conjunct: the store then holds it);
vacuum's removal, keyed on the stale check, evicts the fresh entry (first
conjunct: the key ends up absent) — the freshly persistent key is
incorrectly evicted, so the check-and-remove is not observed as one atomic
step. -/
theorem C5_interleaved_insert_evicted :
    storeGet (tsCheckThenRemove c5store 1 "id" c5insert) "id" = none ∧
    storeGet (c5insert c5store) "id" = some ⟨"fresh", ExpireMeta.Persistent⟩ ∧
    expiredIn c5store 1 "id" = true :=
  ⟨rfl, rfl, rfl⟩

/-- Claim C6.  The expiration test is a pure function of the entry's state
and the current time: `expired` reports true exactly when the key has no
entry in the store, or its entry carries `Expires{inserted, ttl}` with
`now - inserted > ttl` (strict, so an entry is still valid at the exact
instant its TTL elapses); a `Persistent` entry is never expired. -/
theorem C6_expired_iff [DecidableEq K] (c : HashCache K V) (now : Nat) (k : K) :
    c.expired now k = true ↔
      storeGet c.store k = none ∨
        ∃ v e, storeGet c.store k = some v ∧ v.expires = ExpireMeta.Expires e ∧
          now - e.inserted > e.ttl := by
  cases hg : storeGet c.store k with
  | none => simp [HashCache.expired, expiredIn, hg]
  | some v =>
    cases hv : v.expires with
    | Persistent => simp [HashCache.expired, expiredIn, hg, hv]
    | Expires e => simp [HashCache.expired, expiredIn, hg, hv]

/-- Claim C10.  The persistent `insert` (src/lib.rs lines 90-93) writes only
the store: for every cache state — including one whose candidate list
already tracks the key from an earlier `insert_ttl` — it overwrites the
key's store entry with a `Persistent` one, returns the previous value, and
leaves the candidate list exactly unchanged, so any stale candidate entries
for the key remain until a vacuum pass samples them. -/
theorem C10_insert_frame [DecidableEq K] (c : HashCache K V) (k : K) (v : V) :
    (c.insert k v).1.expiring = c.expiring ∧
    storeGet (c.insert k v).1.store k = some ⟨v, ExpireMeta.Persistent⟩ ∧
    (c.insert k v).2 = (storeGet c.store k).map Value.value := by
  refine ⟨rfl, ?_, ?_⟩
  · simpa [HashCache.insert] using
      storeGet_insert_self c.store k ⟨v, ExpireMeta.Persistent⟩
  · simp only [HashCache.insert]
    induction c.store with
    | nil => rfl
    | cons p rest ih =>
      by_cases hp : p.1 = k
      · simp [storeInsert, storeGet, hp]
      · simp [storeInsert, storeGet, hp, ih]

/-- Claim C3.  A vacuum pass never removes a live entry from the store: for
every entry that is `Persistent` or satisfies `now - inserted_at <= ttl` at
the time it is checked, `vacuum_sample` — for any requested count and any
sampler — leaves that entry in the store, whether the pass completes or
panics in the removal step (the store removals of src/lib.rs line 78 are
guarded by `expired`, which is false for a live entry). -/
theorem C3_vacuum_preserves_live [DecidableEq K] (c : HashCache K V) (now count : Nat)
    (sampler : Nat → Nat → List Nat) (k : K) (v : Value V)
    (hg : storeGet c.store k = some v) (hl : LiveEntry now v) :
    storeGet (sampleResultStore (c.vacuumSample now count sampler)) k = some v := by
  have hm := markGo_preserves_live c.expiring now
    (sampler c.expiring.length (min count c.expiring.length)) c.store [] k v hg hl
  simp only [HashCache.vacuumSample]
  cases hr : removeGo c.expiring 0
      (markGo c.expiring now (sampler c.expiring.length (min count c.expiring.length))
        c.store []).2 with
  | ok p =>
    obtain ⟨e, m⟩ := p
    simpa [sampleResultStore] using hm
  | error e =>
    simpa [sampleResultStore] using hm

/-- Witness for `C3_vacuum_preserves_live`: a persistent entry survives a
vacuum pass that evicts an expired neighbour. -/
theorem C3_witness :
    storeGet c3cache.store "p" = some ⟨"vp", ExpireMeta.Persistent⟩ ∧
    storeGet (sampleResultStore (c3cache.vacuumSample 1 1 oneSampler)) "p" =
      some ⟨"vp", ExpireMeta.Persistent⟩ :=
  ⟨rfl, C3_vacuum_preserves_live c3cache 1 1 oneSampler "p" ⟨"vp", ExpireMeta.Persistent⟩
    rfl (Or.inl rfl)⟩

/-- Claim C4.  The convergence property fails on the code: with a candidate
list of size N = 2 whose E = 2 entries are both expired (second and third
conjuncts) and threshold 1/2 in (0,1), `vacuum(2, 1/2)` samples all indices
in the first pass, but when the draw visits them in ascending order
(probability 1/2) the removal step panics out of bounds instead of removing
the two expired entries and terminating: the outcome is the `Vec::remove`
panic with the store emptied and `["y"]` still in the candidate list. -/
theorem C4_vacuum_panics :
    c4cache.vacuum 1 2 (1/2) (fun _ => ascSampler2) = VacOutcome.removePanic ⟨[], ["y"]⟩ ∧
    expiredIn c4cache.store 1 "x" = true ∧
    expiredIn c4cache.store 1 "y" = true := by
  refine ⟨?_, rfl, rfl⟩
  unfold HashCache.vacuum
  rw [if_pos (by norm_num : (1/2 : ℚ) > 0), if_pos (by norm_num : (1/2 : ℚ) < 1)]
  show vacuumLoop 1 2 (1/2) (fun _ => ascSampler2) (2 + 1 + 1) 0 c4cache ((2 : Nat) : ℚ) = _
  have hs : c4cache.vacuumSample 1 2 ((fun _ => ascSampler2) 0) =
      Except.error ⟨[], ["y"]⟩ := rfl
  rw [vacuumLoop_panic 1 2 (1/2) (fun _ => ascSampler2) (2 + 1) 0 c4cache ⟨[], ["y"]⟩ _
    (by norm_num) hs]

/-- Claim C7.  `vacuum` hits the `assert!` failure (a panic, fatal and
non-recoverable) exactly when the retry threshold is not strictly inside
(0, 1); the failure happens before any sampling (the asserts are the first
statements), with the store and candidate list untouched — the outcome
carries the input cache unchanged.  For thresholds inside (0, 1) the
assertion failure cannot occur, whatever the cache, clock, count or
sampler. -/
theorem C7_threshold_assert [DecidableEq K] (c : HashCache K V) (now count : Nat) (t : ℚ)
    (oracle : Nat → Nat → Nat → List Nat) :
    ((c.vacuum now count t oracle).isAssertFail = true ↔ ¬(0 < t ∧ t < 1)) ∧
    (¬(0 < t ∧ t < 1) → c.vacuum now count t oracle = VacOutcome.assertFail c) := by
  unfold HashCache.vacuum
  by_cases h0 : t > 0
  · by_cases h1 : t < 1
    · rw [if_pos h0, if_pos h1]
      constructor
      · rw [vacuumLoop_isAssertFail]
        simp [h0, h1]
      · intro h
        exact absurd ⟨h0, h1⟩ h
    · rw [if_pos h0, if_neg h1]
      refine ⟨?_, fun _ => rfl⟩
      simp [VacOutcome.isAssertFail, h1]
  · rw [if_neg h0]
    refine ⟨?_, fun _ => rfl⟩
    simp [VacOutcome.isAssertFail, h0]

/-- Witness for `C7_threshold_assert`: threshold 2 lies outside (0, 1), and
the call aborts with the cache unchanged. -/
theorem C7_witness :
    (HashCache.new : HashCache String String).vacuum 0 5 2 (fun _ _ _ => []) =
      VacOutcome.assertFail HashCache.new :=
  (C7_threshold_assert HashCache.new 0 5 2 (fun _ _ _ => [])).2 (by norm_num)

/-- Claim C8, counterexample.  For `count = 0` the loop body never executes,
even though the threshold 1/2 is inside (0, 1): the guard compares
`expired_count/(count as f32) = 0.0/0.0 = NaN` with the threshold and
`NaN > t` is false (in the rational model, `0 / 0 = 0` is likewise not
greater than the positive threshold), so `vacuum` returns after zero passes
— refuting the claim for every count. -/
theorem C8_counterexample :
    (HashCache.new : HashCache String String).vacuum 0 0 (1/2) (fun _ => emptySampler) =
      VacOutcome.ok HashCache.new 0 := by
  unfold HashCache.vacuum
  rw [if_pos (by norm_num : (1/2 : ℚ) > 0), if_pos (by norm_num : (1/2 : ℚ) < 1)]
  show vacuumLoop 0 0 (1/2) (fun _ => emptySampler) (0 + 1 + 1) 0 HashCache.new
    ((0 : Nat) : ℚ) = _
  exact vacuumLoop_stop 0 0 (1/2) (fun _ => emptySampler) (0 + 1) 0 HashCache.new _
    (by norm_num)

/-- Claim C8, amended: for every `count >= 1` and every retry threshold in
(0, 1), the retry loop executes its body at least once — even when the
candidate list is empty — because `expired_count` is seeded with `count`,
making the first ratio check `count/count = 1 > retry_threshold` pass.  (For
`count = 0` the seeded ratio is `0.0/0.0 = NaN`, the check fails, and the
body never runs: see the counterexample.) -/
theorem C8_amended_runs_once [DecidableEq K] (c : HashCache K V) (now count : Nat) (t : ℚ)
    (oracle : Nat → Nat → Nat → List Nat) (ht0 : 0 < t) (ht1 : t < 1) (hc : 1 ≤ count) :
    (c.vacuum now count t oracle).stoppedWithoutPass = false := by
  unfold HashCache.vacuum
  rw [if_pos ht0, if_pos ht1]
  have hguard : (count : ℚ) / (count : ℚ) > t := by
    have hne : (count : ℚ) ≠ 0 := Nat.cast_ne_zero.mpr (by omega)
    rw [div_self hne]
    exact ht1
  show (vacuumLoop now count t oracle (c.expiring.length + 1 + 1) 0 c
    ((count : Nat) : ℚ)).stoppedWithoutPass = false
  cases hs : c.vacuumSample now count (oracle 0) with
  | error cp =>
    rw [vacuumLoop_panic now count t oracle (c.expiring.length + 1) 0 c cp _ hguard hs]
    rfl
  | ok p =>
    obtain ⟨c2, n⟩ := p
    rw [vacuumLoop_pass now count t oracle (c.expiring.length + 1) 0 c c2 _ n hguard hs]
    exact vacuumLoop_stoppedWithoutPass now count t oracle (c.expiring.length + 1) 1 c2
      (n : ℚ) (by omega)

/-- Witness for `C8_amended_runs_once`: `count = 1`, threshold 1/2, empty
candidate list. -/
theorem C8_witness :
    ((HashCache.new : HashCache String String).vacuum 0 1 (1/2)
      (fun _ => emptySampler)).stoppedWithoutPass = false :=
  C8_amended_runs_once HashCache.new 0 1 (1/2) (fun _ => emptySampler)
    (by norm_num) (by norm_num) (by norm_num)

/-- Claim C9.  The loose invariant is violated in a state reachable by
`insert_ttl` and `vacuum` alone.  From a fresh cache, insert `"a"` and `"b"`
with TTL 0 and `"c"` with TTL 100 at tick 0; at tick 1 run
`vacuum(3, 9/10)` with the (probability 1/6) ascending draw `[0, 1, 2]`.
The pass marks indices 0 and 1 (only `"a"` and `"b"` are expired) and
removes their keys from the store, but the shift-unaware removal of marked
index 1 deletes candidate position 2 — the entry for `"c"`.  The resulting
state has `"c"` holding non-expired `Expires` state in the store (second
and third conjuncts) while the candidate list `["b"]` no longer contains
`"c"` (fourth conjunct), so the key can never be vacuumed again. -/
theorem C9_invariant_broken :
    c9Start.vacuum 1 3 (9/10) (fun _ => ascSampler3) = VacOutcome.ok c9After 1 ∧
    storeGet c9After.store "c" = some ⟨"vc", ExpireMeta.Expires ⟨0, 100⟩⟩ ∧
    expiredIn c9After.store 1 "c" = false ∧
    c9After.expiring.contains "c" = false := by
  refine ⟨?_, rfl, rfl, rfl⟩
  unfold HashCache.vacuum
  rw [if_pos (by norm_num : (9/10 : ℚ) > 0), if_pos (by norm_num : (9/10 : ℚ) < 1)]
  show vacuumLoop 1 3 (9/10) (fun _ => ascSampler3) (3 + 1 + 1) 0 c9Start ((3 : Nat) : ℚ) = _
  have hs : c9Start.vacuumSample 1 3 ((fun _ => ascSampler3) 0) =
      Except.ok (c9After, 2) := rfl
  rw [vacuumLoop_pass 1 3 (9/10) (fun _ => ascSampler3) (3 + 1) 0 c9Start c9After _ 2
    (by norm_num) hs]
  exact vacuumLoop_stop 1 3 (9/10) (fun _ => ascSampler3) 3 1 c9After _ (by norm_num)

end Hodor
